import Mathlib

/-!
Verification of the nokvault encryption core against its source.

Bytes are modelled as natural numbers (values 0..255); byte strings as
`List Nat`. Fallible Go functions return `Except String`; a Go runtime
panic is modelled by a dedicated constructor. External library
primitives that the repository merely calls (the Go standard library's
AES-GCM AEAD, `encoding/json` marshalling, `golang.org/x/crypto/argon2`)
are modelled as parameters constrained by their documented contracts, so
that every theorem is about the repository's own wiring of those
primitives. Randomness (nonce and salt draws) is passed explicitly as
oracle arguments, following the source call sites.
-/

/-! ## AES-GCM layer, from internal/crypto (aes_gcm source file) -/

/-- NonceSize is the nonce size for GCM, from the crypto package constants. -/
def NonceSize : Nat := 12

/-- GCMTagSize is the authentication tag size, from the crypto package constants. -/
def GCMTagSize : Nat := 16

/-- Model of Go's `cipher.AEAD` value obtained from `cipher.NewGCM(block)`:
`sealFn nonce plaintext` is `aead.Seal(nil, nonce, plaintext, nil)` and
`openFn nonce blob` is `aead.Open(nil, nonce, blob, nil)` (`none` = error).
The key is already bound inside, as in the Go code where the AEAD is
constructed from the key. -/
structure AEAD where
  sealFn : List Nat → List Nat → List Nat
  openFn : List Nat → List Nat → Option (List Nat)

/-- AESGCM handles AES-256-GCM encryption/decryption (struct from the source). -/
structure AESGCM where
  aead : AEAD

/-- NewAESGCM creates a new AES-GCM cipher. `gcmOf` stands for the Go
standard library composition `cipher.NewGCM(aes.NewCipher(key))`, which
only the 32-byte length check guards in the source. -/
def NewAESGCM (gcmOf : List Nat → AEAD) (key : List Nat) : Except String AESGCM :=
  if key.length ≠ 32 then
    .error "invalid key length: expected 32 bytes (256 bits)"
  else
    .ok ⟨gcmOf key⟩

/-- Encrypt encrypts plaintext using AES-GCM. The fresh random nonce drawn
from `rand.Reader` in the source is the explicit `nonce` argument here;
`aead.Seal(nonce, nonce, plaintext, nil)` appends the sealed bytes to the
nonce. -/
def AESGCM.Encrypt (a : AESGCM) (nonce plaintext : List Nat) : List Nat :=
  nonce ++ a.aead.sealFn nonce plaintext

/-- Decrypt decrypts ciphertext using AES-GCM, from the source: reject
inputs shorter than `NonceSize + GCMTagSize`, split off the nonce, then
`aead.Open`. -/
def AESGCM.Decrypt (a : AESGCM) (ciphertext : List Nat) : Except String (List Nat) :=
  if ciphertext.length < NonceSize + GCMTagSize then
    .error "ciphertext too short"
  else
    match a.aead.openFn (ciphertext.take NonceSize) (ciphertext.drop NonceSize) with
    | some plaintext => .ok plaintext
    | none => .error "decryption failed"

/-- EncryptData from internal/core/encryption.go: build the cipher from the
key, then encrypt. -/
def EncryptData (gcmOf : List Nat → AEAD) (data key nonce : List Nat) :
    Except String (List Nat) :=
  match NewAESGCM gcmOf key with
  | .error e => .error e
  | .ok a => .ok (a.Encrypt nonce data)

/-- DecryptData from internal/core/encryption.go: build the cipher from the
key, then decrypt. -/
def DecryptData (gcmOf : List Nat → AEAD) (ciphertext key : List Nat) :
    Except String (List Nat) :=
  match NewAESGCM gcmOf key with
  | .error e => .error e
  | .ok a => a.Decrypt ciphertext

/-! ## Key derivation, from internal/crypto (key derivation source file) -/

/-- SaltLength from the crypto package constants. -/
def SaltLength : Nat := 16

/-- DeriveKey from the crypto package: checks the salt length, then calls
`argon2.IDKey` (external library, passed in as `argon2id`). -/
def DeriveKey (argon2id : List Nat → List Nat → List Nat)
    (password salt : List Nat) : Except String (List Nat) :=
  if salt.length ≠ SaltLength then
    .error "invalid salt length"
  else
    .ok (argon2id password salt)

/-! ## Container format, from internal/core (file handler source file) -/

/-- Little-endian encoding of a `uint16`. -/
def u16le (v : Nat) : List Nat := [v % 256, v / 256 % 256]

/-- Little-endian encoding of a `uint32`. -/
def u32le (v : Nat) : List Nat :=
  [v % 256, v / 256 % 256, v / 256 ^ 2 % 256, v / 256 ^ 3 % 256]

/-- Little-endian encoding of a `uint64`. -/
def u64le (v : Nat) : List Nat :=
  [v % 256, v / 256 % 256, v / 256 ^ 2 % 256, v / 256 ^ 3 % 256,
   v / 256 ^ 4 % 256, v / 256 ^ 5 % 256, v / 256 ^ 6 % 256, v / 256 ^ 7 % 256]

/-- Little-endian decoding of a byte list into a natural number. -/
def leNat (bs : List Nat) : Nat :=
  bs.foldr (fun b acc => b % 256 + 256 * acc) 0

/-- NokvaultMagic, the ASCII bytes of "NOKVAULT". -/
def NokvaultMagic : List Nat := [78, 79, 75, 86, 65, 85, 76, 84]

/-- CurrentVersion of the file format. -/
def CurrentVersion : Nat := 1

/-- `binary.Size(NokvaultHeader)`: magic 8 + version 2 + salt 16 +
metadataSize 4 + dataOffset 8 bytes, as encoding/binary lays the struct
out with no padding. -/
def headerBinarySize : Nat := 38

/-- FileMetadata from the source (modification time held as a Unix
timestamp integer). -/
structure FileMetadata where
  name : String
  size : Int
  mode : Nat
  modTime : Int
  isDir : Bool
  relativePath : String
deriving DecidableEq, Repr

/-- NokvaultHeader from the source. -/
structure NokvaultHeader where
  magic : List Nat
  version : Nat
  salt : List Nat
  metadataSize : Nat
  dataOffset : Nat
deriving DecidableEq, Repr

/-- Model of Go's `encoding/json` marshalling of `FileMetadata` (external
standard library): an encoder and a decoder, constrained where needed by
the round-trip contract `dec (enc m) = some m`. -/
structure MetadataCodec where
  enc : FileMetadata → List Nat
  dec : List Nat → Option FileMetadata

/-- WriteHeader from the source: validate the salt length, serialize the
metadata when present, set `MetadataSize = uint32(len(metadataJSON))` and
`DataOffset = binary.Size(header) + MetadataSize`, then emit the
little-endian struct followed by the metadata bytes. -/
def WriteHeader (codec : MetadataCodec) (salt : List Nat)
    (metadata : Option FileMetadata) : Except String (List Nat) :=
  if salt.length ≠ 16 then
    .error "salt must be 16 bytes"
  else
    let metadataJSON := match metadata with
      | some m => codec.enc m
      | none => []
    let metadataSize := metadataJSON.length % 2 ^ 32
    let dataOffset := headerBinarySize + metadataSize
    .ok (NokvaultMagic ++ u16le CurrentVersion ++ salt ++
         u32le metadataSize ++ u64le dataOffset ++ metadataJSON)

/-- ReadHeader from the source: `binary.Read` consumes the 38-byte struct
(failing on short input), then the magic and version are checked. Returns
the header together with the unread remainder of the stream. -/
def ReadHeader (input : List Nat) :
    Except String (NokvaultHeader × List Nat) :=
  if input.length < headerBinarySize then
    .error "failed to read header"
  else
    let magic := input.take 8
    let version := leNat ((input.drop 8).take 2)
    let salt := (input.drop 10).take 16
    let metadataSize := leNat ((input.drop 26).take 4)
    let dataOffset := leNat ((input.drop 30).take 8)
    if magic ≠ NokvaultMagic then
      .error "invalid magic number: not a nokvault file"
    else if version ≠ CurrentVersion then
      .error "unsupported version"
    else
      .ok (⟨magic, version, salt, metadataSize, dataOffset⟩,
           input.drop headerBinarySize)

/-- ReadHeaderWithMetadata from the source: read the header, then when
`MetadataSize > 0` read exactly that many bytes (`io.ReadFull`, failing if
fewer remain) and unmarshal them; a zero size yields nil metadata. -/
def ReadHeaderWithMetadata (codec : MetadataCodec) (input : List Nat) :
    Except String (NokvaultHeader × Option FileMetadata × List Nat) :=
  match ReadHeader input with
  | .error e => .error e
  | .ok (header, rest) =>
    if header.metadataSize > 0 then
      if rest.length < header.metadataSize then
        .error "failed to read metadata"
      else
        match codec.dec (rest.take header.metadataSize) with
        | none => .error "failed to deserialize metadata"
        | some m => .ok (header, some m, rest.drop header.metadataSize)
    else
      .ok (header, none, rest)

/-! ## Compression, from internal/core/compression.go and directory.go -/

/-- ShouldCompress from the source: below the minimum size, or already
gzip-compressed (leading bytes 0x1f 0x8b), means no compression. -/
def ShouldCompress (data : List Nat) (minSize : Nat) : Bool :=
  if data.length < minSize then
    false
  else if 2 ≤ data.length ∧ data.take 2 = [0x1f, 0x8b] then
    false
  else
    true

/-- The compression decision in `DirectoryEncryptor.encryptFileWithMetadata`:
`de.compress && de.compressionService.ShouldCompress(data, 1024)`. -/
def directoryCompressionApplied (compress : Bool) (data : List Nat) : Bool :=
  compress && ShouldCompress data 1024

/-! ## Secure deletion, from internal/core (secure delete source file) -/

/-- The pass count chosen by NewSecureDeleteService: a value below 1
defaults to 3. Go's `passes` is a signed int, hence `Int` here. -/
def secureDeletePasses (passes : Int) : Nat :=
  if passes < 1 then 3 else passes.toNat

/-- overwritePass pattern selection from the source, switching on
`pass % 3`: random data (the `rng` oracle stands for `rand.Read`),
all zeros, or all 0xFF, each of full file length. -/
def overwritePattern (rng : Nat → Nat → List Nat) (size pass : Nat) : List Nat :=
  match pass % 3 with
  | 0 => rng pass size
  | 1 => List.replicate size 0
  | _ => List.replicate size 255

/-- The sequence of overwrite patterns Delete writes before unlinking:
an empty file is unlinked with no passes; otherwise one full-length
pattern per pass, in pass order. File-system side effects (seek, sync,
remove) are elided; the write sequence is the observable modelled. -/
def secureDeleteWrites (passes : Int) (fileSize : Nat)
    (rng : Nat → Nat → List Nat) : List (List Nat) :=
  if fileSize = 0 then
    []
  else
    (List.range (secureDeletePasses passes)).map
      (fun pass => overwritePattern rng fileSize pass)

/-! ## Directory walk, from internal/core/directory.go

The filesystem walk is modelled as the list of entries `filepath.Walk`
yields, each carrying its path, its path relative to the input root
(`filepath.Rel`), and its directory flag. The per-file pipeline
(`encryptFileWithMetadata` / `decryptFileWithMetadata`) and the
`EnsureDirectory` calls are parameters, since the claims under study are
about the walk's control flow around them. -/

structure WalkEntry where
  path : String
  relPath : String
  isDir : Bool
deriving DecidableEq, Repr

structure DirProgressEvent where
  current : Nat
  total : Nat
  file : String
deriving DecidableEq, Repr

/-- `filepath.Ext`: the suffix of the path starting at its final dot,
empty when the final path element has no dot. -/
def extAux (acc : List Char) : List Char → List Char
  | [] => []
  | c :: rest =>
    if c = '/' then []
    else if c = '.' then c :: acc
    else extAux (c :: acc) rest

def filepathExt (s : String) : String :=
  String.mk (extAux [] s.data.reverse)

/-- The body of `DirectoryEncryptor.EncryptDirectory`'s walk callback,
iterated over the remaining entries. Directories are skipped; for a file
the counter is bumped, a progress event `(current, total, relPath)` is
emitted, and the pipeline runs; a pipeline error is wrapped with the
relative path and returned, which makes `filepath.Walk` stop. Returns the
emitted progress events and the walk's result. -/
def encryptWalk (pipeline : WalkEntry → Except String Unit) (total : Nat) :
    List WalkEntry → Nat → List DirProgressEvent × Except String Unit
  | [], _ => ([], .ok ())
  | e :: rest, current =>
    if e.isDir then
      encryptWalk pipeline total rest current
    else
      let ev : DirProgressEvent := ⟨current + 1, total, e.relPath⟩
      match pipeline e with
      | .error msg =>
        ([ev], .error ("failed to encrypt " ++ e.relPath ++ ": " ++ msg))
      | .ok _ =>
        let r := encryptWalk pipeline total rest (current + 1)
        (ev :: r.1, r.2)

/-- EncryptDirectory from the source: count the files (`CountFiles`
excludes directories), then walk and encrypt each entry. -/
def EncryptDirectory (entries : List WalkEntry)
    (pipeline : WalkEntry → Except String Unit) :
    List DirProgressEvent × Except String Unit :=
  let totalFiles := (entries.filter (fun e => !e.isDir)).length
  encryptWalk pipeline totalFiles entries 0

/-- The body of `DirectoryDecryptor.DecryptDirectory`'s walk callback:
directories and entries without the `.nokvault` extension are skipped;
for a matching file the counter is bumped, the output relative path drops
the `.nokvault` suffix, a progress event `(current, total, outputRelPath)`
is emitted, and the pipeline runs; a pipeline error is wrapped with the
relative path and returned, stopping the walk. -/
def decryptWalk (pipeline : WalkEntry → Except String Unit) (total : Nat) :
    List WalkEntry → Nat → List DirProgressEvent × Except String Unit
  | [], _ => ([], .ok ())
  | e :: rest, current =>
    if e.isDir ∨ filepathExt e.path ≠ ".nokvault" then
      decryptWalk pipeline total rest current
    else
      let outputRelPath := e.relPath.dropRight ".nokvault".length
      let ev : DirProgressEvent := ⟨current + 1, total, outputRelPath⟩
      match pipeline e with
      | .error msg =>
        ([ev], .error ("failed to decrypt " ++ e.relPath ++ ": " ++ msg))
      | .ok _ =>
        let r := decryptWalk pipeline total rest (current + 1)
        (ev :: r.1, r.2)

/-- DecryptDirectory from the source: count the `.nokvault` files, then
walk and decrypt each matching entry. -/
def DecryptDirectory (entries : List WalkEntry)
    (pipeline : WalkEntry → Except String Unit) :
    List DirProgressEvent × Except String Unit :=
  let totalFiles :=
    (entries.filter (fun e => !e.isDir && filepathExt e.path = ".nokvault")).length
  decryptWalk pipeline totalFiles entries 0

/-! ## Single-file decrypt pipelines -/

/-- Outcome of a Go function that can also panic at runtime. -/
inductive GoResult (α : Type) where
  | ok : α → GoResult α
  | err : String → GoResult α
  | panicked : String → GoResult α
deriving DecidableEq, Repr

/-- `DirectoryDecryptor.decryptFileWithMetadata` from directory.go:
read header+metadata, re-read the whole file, slice it at
`dataStart := int64(header.DataOffset)` with `ciphertext[dataStart:]`
(a Go slice expression, which panics when the bound exceeds the slice
length), decrypt, then attempt gzip decompression when the plaintext
starts with the gzip magic (a failed decompression keeps the plaintext).
Returns the plaintext that would be written to the output file. -/
def coreDecryptFileWithMetadata (gcmOf : List Nat → AEAD)
    (codec : MetadataCodec) (gunzip : List Nat → Except String (List Nat))
    (content key : List Nat) : GoResult (List Nat) :=
  match ReadHeaderWithMetadata codec content with
  | .error e => .err ("failed to read header: " ++ e)
  | .ok (header, _metadata, _) =>
    if header.dataOffset ≤ content.length then
      let ciphertext := content.drop header.dataOffset
      match DecryptData gcmOf ciphertext key with
      | .error e => .err ("decryption failed: " ++ e)
      | .ok plaintext =>
        if 2 ≤ plaintext.length ∧ plaintext.take 2 = [0x1f, 0x8b] then
          match gunzip plaintext with
          | .ok decompressed => .ok decompressed
          | .error _ => .ok plaintext
        else
          .ok plaintext
    else
      .panicked "slice bounds out of range"

/-- The ciphertext extraction in cli/decrypt.go's `decryptFile`:
`inputFile.Seek(int64(header.DataOffset), io.SeekStart)` followed by
`io.ReadAll` — seeking at or past end-of-file simply makes ReadAll
return no bytes, which `List.drop` models exactly. -/
def cliReadCiphertext (content : List Nat) (dataOffset : Nat) : List Nat :=
  content.drop dataOffset

/-- `decryptFile` from cli/decrypt.go, its core data path: read
header+metadata, seek to the data offset and read the ciphertext, derive
the key from the password and the header's salt, decrypt, then attempt
gzip decompression on a gzip-magic plaintext. -/
def cliDecryptFile (gcmOf : List Nat → AEAD) (codec : MetadataCodec)
    (argon2id : List Nat → List Nat → List Nat)
    (gunzip : List Nat → Except String (List Nat))
    (content password : List Nat) : Except String (List Nat) :=
  match ReadHeaderWithMetadata codec content with
  | .error _ => .error "Invalid nokvault file format"
  | .ok (header, _metadata, _) =>
    match DeriveKey argon2id password header.salt with
    | .error e => .error e
    | .ok key =>
      let ciphertext := cliReadCiphertext content header.dataOffset
      match DecryptData gcmOf ciphertext key with
      | .error _ => .error "Decryption failed - incorrect password or corrupted file"
      | .ok plaintext =>
        if 2 ≤ plaintext.length ∧ plaintext.take 2 = [0x1f, 0x8b] then
          match gunzip plaintext with
          | .ok decompressed => .ok decompressed
          | .error _ => .ok plaintext
        else
          .ok plaintext

/-! ## Key rotation, from internal/cli/rotate_key.go -/

/-- The external primitives `runRotateKey` composes. -/
structure RotateEnv where
  gcmOf : List Nat → AEAD
  argon2id : List Nat → List Nat → List Nat
  codec : MetadataCodec

/-- runRotateKey from the source, its data path after the passwords are
obtained: read header+metadata; derive the old key from the old password
and the header's stored salt; read the ciphertext from the data offset
and decrypt it with the old key; draw a fresh salt (`newSaltDraw`, from
`crypto.GenerateSalt()`); derive the new key via
`keyManager.DeriveKeyFromPassword(newPassword)` — which draws its own,
second salt (`keyGenSaltDraw`) and discards it; encrypt the plaintext
with the new key (nonce draw `nonceDraw`); write header(newSaltDraw) +
metadata + new ciphertext. The temp-file/rename step is elided: the
returned bytes are the rotated container's content. -/
def runRotateKey (env : RotateEnv) (content oldPassword newPassword : List Nat)
    (newSaltDraw keyGenSaltDraw nonceDraw : List Nat) :
    Except String (List Nat) :=
  match ReadHeaderWithMetadata env.codec content with
  | .error _ => .error "Invalid nokvault file format"
  | .ok (header, metadata, _) =>
    match DeriveKey env.argon2id oldPassword header.salt with
    | .error e => .error e
    | .ok oldKey =>
      let ciphertext := content.drop header.dataOffset
      match DecryptData env.gcmOf ciphertext oldKey with
      | .error _ => .error "Decryption failed"
      | .ok plaintext =>
        let newSalt := newSaltDraw
        match DeriveKey env.argon2id newPassword keyGenSaltDraw with
        | .error e => .error e
        | .ok newKey =>
          match EncryptData env.gcmOf plaintext newKey nonceDraw with
          | .error e => .error e
          | .ok newCiphertext =>
            match WriteHeader env.codec newSalt metadata with
            | .error e => .error e
            | .ok headerBytes => .ok (headerBytes ++ newCiphertext)

/-! ## Concrete instances used by witnesses and counterexamples

A small executable AEAD standing in for the standard library's AES-GCM in
concrete evaluations: the sealed blob is the plaintext followed by a
16-byte tag derived from key, nonce and payload, and opening checks the
tag. It satisfies the AEAD contract hypotheses of the general theorems at
the concrete inputs where it is used, which is checked by evaluation. -/

def toyMix (l : List Nat) : Nat :=
  l.foldl (fun acc b => (acc * 31 + b + 7) % 1009) 3

def toyTag (key nonce ct : List Nat) : Nat :=
  (toyMix key * 31 + toyMix nonce * 17 + toyMix ct * 13 + ct.length * 7 + 2) % 256

def toyGcmOf (key : List Nat) : AEAD where
  sealFn := fun nonce p => p ++ List.replicate GCMTagSize (toyTag key nonce p)
  openFn := fun nonce c =>
    if GCMTagSize ≤ c.length then
      let ct := c.take (c.length - GCMTagSize)
      let tg := c.drop (c.length - GCMTagSize)
      if tg = List.replicate GCMTagSize (toyTag key nonce ct) then some ct else none
    else
      none

/-- A small executable stand-in for `argon2.IDKey` with the default
32-byte output length. -/
def toyArgon (pw salt : List Nat) : List Nat :=
  (List.range 32).map (fun i => (toyMix pw * 3 + toyMix salt * 5 + i * 11) % 256)

/-- A degenerate metadata codec for evaluations that never touch metadata. -/
def codec0 : MetadataCodec := ⟨fun _ => [], fun _ => none⟩

/-- A concrete metadata record for round-trip witnesses. -/
def mW : FileMetadata := ⟨"a.txt", 2, 420, 1700000000, false, "a.txt"⟩

/-- A concrete codec that encodes `mW` as the two-byte JSON text and
decodes it back, witnessing the codec contract at `mW`. -/
def codecW : MetadataCodec :=
  ⟨fun _ => [123, 125], fun bs => if bs = [123, 125] then some mW else none⟩

/-! ## Claims about the AEAD layer -/

/-- C3: for every 32-byte key (the nonce draw modelled as a parameter),
decrypting an encryption of any plaintext under the same key returns the
plaintext. The AEAD primitive supplied by the standard library enters
through its contract: the sealed blob carries a 16-byte tag on top of the
plaintext and opening inverts sealing. -/
theorem aesgcm_roundtrip (gcmOf : List Nat → AEAD) (key nonce p : List Nat)
    (hkey : key.length = 32)
    (hnonce : nonce.length = NonceSize)
    (hseal : ((gcmOf key).sealFn nonce p).length = p.length + GCMTagSize)
    (hopen : (gcmOf key).openFn nonce ((gcmOf key).sealFn nonce p) = some p) :
    ∃ a, NewAESGCM gcmOf key = .ok a ∧ a.Decrypt (a.Encrypt nonce p) = .ok p := by
  refine ⟨⟨gcmOf key⟩, by simp [NewAESGCM, hkey], ?_⟩
  unfold AESGCM.Encrypt AESGCM.Decrypt
  have hlen : (nonce ++ (gcmOf key).sealFn nonce p).length =
      NonceSize + (p.length + GCMTagSize) := by
    simp [hnonce, hseal]
  have hnotshort : ¬ (nonce ++ (gcmOf key).sealFn nonce p).length <
      NonceSize + GCMTagSize := by
    rw [hlen]; omega
  rw [if_neg hnotshort]
  have htake : (nonce ++ (gcmOf key).sealFn nonce p).take NonceSize = nonce :=
    List.take_left' hnonce
  have hdrop : (nonce ++ (gcmOf key).sealFn nonce p).drop NonceSize =
      (gcmOf key).sealFn nonce p :=
    List.drop_left' hnonce
  rw [htake, hdrop, hopen]

/-- Witness for C3 at a concrete toy instance. -/
theorem aesgcm_roundtrip_witness :
    ∃ a, NewAESGCM toyGcmOf (List.replicate 32 5) = .ok a ∧
      a.Decrypt (a.Encrypt (List.replicate 12 0) [1, 2, 3]) = .ok [1, 2, 3] :=
  aesgcm_roundtrip toyGcmOf (List.replicate 32 5) (List.replicate 12 0) [1, 2, 3]
    (by decide) (by decide) (by decide) (by decide)

/-- C7: every input shorter than nonce size + tag size (28 bytes) is
rejected by Decrypt with an error, for every valid 32-byte key. -/
theorem decrypt_rejects_short_input (gcmOf : List Nat → AEAD)
    (key blob : List Nat) (hkey : key.length = 32)
    (hshort : blob.length < NonceSize + GCMTagSize) :
    ∃ a, NewAESGCM gcmOf key = .ok a ∧
      a.Decrypt blob = .error "ciphertext too short" := by
  refine ⟨⟨gcmOf key⟩, by simp [NewAESGCM, hkey], ?_⟩
  unfold AESGCM.Decrypt
  rw [if_pos hshort]

/-- Witness for C7 at a concrete short input. -/
theorem decrypt_rejects_short_input_witness :
    ∃ a, NewAESGCM toyGcmOf (List.replicate 32 0) = .ok a ∧
      a.Decrypt [1, 2, 3] = .error "ciphertext too short" :=
  decrypt_rejects_short_input toyGcmOf (List.replicate 32 0) [1, 2, 3]
    (by decide) (by decide)

/-! ## Claims about the container format -/

/-- C6: ReadHeader errors whenever the first 8 bytes are not the magic,
errors whenever the version field does not decode to the supported
version, and succeeds only with a valid magic and version. -/
theorem readHeader_magic_version_validation (input : List Nat) :
    (input.take 8 ≠ NokvaultMagic → ∃ e, ReadHeader input = .error e) ∧
    (leNat ((input.drop 8).take 2) ≠ CurrentVersion →
      ∃ e, ReadHeader input = .error e) ∧
    (∀ header rest, ReadHeader input = .ok (header, rest) →
      header.magic = NokvaultMagic ∧ header.version = CurrentVersion) := by
  unfold ReadHeader
  by_cases hlen : input.length < headerBinarySize
  · rw [if_pos hlen]
    exact ⟨fun _ => ⟨_, rfl⟩, fun _ => ⟨_, rfl⟩, fun _ _ h => by cases h⟩
  · rw [if_neg hlen]
    by_cases hm : input.take 8 ≠ NokvaultMagic
    · rw [if_pos hm]
      exact ⟨fun _ => ⟨_, rfl⟩, fun _ => ⟨_, rfl⟩, fun _ _ h => by cases h⟩
    · rw [if_neg hm]
      push_neg at hm
      by_cases hv : leNat ((input.drop 8).take 2) ≠ CurrentVersion
      · rw [if_pos hv]
        exact ⟨fun h => absurd hm h, fun _ => ⟨_, rfl⟩, fun _ _ h => by cases h⟩
      · rw [if_neg hv]
        push_neg at hv
        refine ⟨fun h => absurd hm h, fun h => absurd hv h, ?_⟩
        intro header rest h
        cases h
        exact ⟨hm, hv⟩

/-- A well-formed 38-byte header with an unsupported version field. -/
def c6BadVersion : List Nat :=
  NokvaultMagic ++ u16le 2 ++ List.replicate 16 7 ++ u32le 0 ++ u64le 38

/-- A well-formed 38-byte header accepted by ReadHeader. -/
def c6Good : List Nat :=
  NokvaultMagic ++ u16le 1 ++ List.replicate 16 7 ++ u32le 0 ++ u64le 38

/-- Witness for C6: a wrong-magic input and a wrong-version input are both
rejected, and a valid header is accepted with the checked fields. -/
theorem readHeader_magic_version_validation_witness :
    (∃ e, ReadHeader (List.replicate 38 0) = .error e) ∧
    (∃ e, ReadHeader c6BadVersion = .error e) ∧
    (NokvaultHeader.magic ⟨NokvaultMagic, 1, List.replicate 16 7, 0, 38⟩ =
        NokvaultMagic ∧
      NokvaultHeader.version ⟨NokvaultMagic, 1, List.replicate 16 7, 0, 38⟩ =
        CurrentVersion) :=
  ⟨(readHeader_magic_version_validation (List.replicate 38 0)).1 (by decide),
   (readHeader_magic_version_validation c6BadVersion).2.1 (by decide),
   (readHeader_magic_version_validation c6Good).2.2
     ⟨NokvaultMagic, 1, List.replicate 16 7, 0, 38⟩ [] rfl⟩

/-! ## Claims about secure deletion -/

/-- C9: a non-positive passes value defaults to 3 passes, and on a
non-empty file the three overwrite patterns are, in pass order (pass
index modulo 3): random bytes, all zeros, all 0xFF. -/
theorem secure_delete_default_passes (passes : Int) (fileSize : Nat)
    (rng : Nat → Nat → List Nat) (hp : passes ≤ 0) (hsz : 0 < fileSize) :
    secureDeleteWrites passes fileSize rng =
      [rng 0 fileSize, List.replicate fileSize 0,
       List.replicate fileSize 255] := by
  have h1 : passes < 1 := by omega
  have h0 : fileSize ≠ 0 := Nat.pos_iff_ne_zero.mp hsz
  unfold secureDeleteWrites secureDeletePasses
  rw [if_neg h0, if_pos h1]
  rfl

/-- Witness for C9 at passes = 0 on a 2-byte file. -/
theorem secure_delete_default_passes_witness :
    (0 : Int) ≤ 0 ∧ 0 < 2 ∧
      secureDeleteWrites 0 2 (fun _ n => List.replicate n 9) =
        [List.replicate 2 9, List.replicate 2 0, List.replicate 2 255] :=
  ⟨by decide, by decide,
   secure_delete_default_passes 0 2 (fun _ n => List.replicate n 9)
     (by decide) (by decide)⟩

/-! ## Claims about the compression decision -/

set_option maxRecDepth 8000 in
/-- C8 counterexample: a payload of exactly 1024 bytes does not exceed the
1024-byte threshold, yet the encrypt pipeline compresses it: the claim's
strict-excess condition fails on the code's non-strict comparison. -/
theorem compression_threshold_counterexample :
    directoryCompressionApplied true (List.replicate 1024 65) = true ∧
    ¬ 1024 < (List.replicate 1024 65).length := by
  constructor
  · unfold directoryCompressionApplied ShouldCompress
    rw [Bool.true_and]
    rw [if_neg (by simp)]
    rw [if_neg (by simp [List.take_replicate])]
  · simp

/-- C8 amended: the payload is compressed exactly when compression is
enabled, the payload is at least the 1024-byte minimum size, and its
leading two bytes are not the gzip magic. -/
theorem compression_applied_iff (compress : Bool) (data : List Nat) :
    directoryCompressionApplied compress data = true ↔
      (compress = true ∧ 1024 ≤ data.length ∧
        ¬ (2 ≤ data.length ∧ data.take 2 = [0x1f, 0x8b])) := by
  unfold directoryCompressionApplied ShouldCompress
  by_cases hc : compress
  · subst hc
    by_cases hlt : data.length < 1024
    · rw [if_pos hlt]
      simp
      omega
    · rw [if_neg hlt]
      by_cases hgz : 2 ≤ data.length ∧ data.take 2 = [0x1f, 0x8b]
      · rw [if_pos hgz]
        simp [hgz]
      · rw [if_neg hgz]
        simp [hgz]
        omega
  · simp at hc
    subst hc
    simp

/-! ## Little-endian round-trip facts and header layout -/

lemma leNat_u16le (v : Nat) (h : v < 2 ^ 16) : leNat (u16le v) = v := by
  simp only [leNat, u16le, List.foldr]
  omega

lemma leNat_u32le (v : Nat) (h : v < 2 ^ 32) : leNat (u32le v) = v := by
  simp only [leNat, u32le, List.foldr]
  have e2 : (256 : Nat) ^ 2 = 65536 := by norm_num
  have e3 : (256 : Nat) ^ 3 = 16777216 := by norm_num
  rw [e2, e3]
  omega

lemma leNat_u64le (v : Nat) (h : v < 2 ^ 64) : leNat (u64le v) = v := by
  simp only [leNat, u64le, List.foldr]
  have e2 : (256 : Nat) ^ 2 = 65536 := by norm_num
  have e3 : (256 : Nat) ^ 3 = 16777216 := by norm_num
  have e4 : (256 : Nat) ^ 4 = 4294967296 := by norm_num
  have e5 : (256 : Nat) ^ 5 = 1099511627776 := by norm_num
  have e6 : (256 : Nat) ^ 6 = 281474976710656 := by norm_num
  have e7 : (256 : Nat) ^ 7 = 72057594037927936 := by norm_num
  rw [e2, e3, e4, e5, e6, e7]
  omega

/-- Field extraction from the byte string WriteHeader emits. -/
lemma headerLayout (salt ms4 d8 mj : List Nat)
    (hs : salt.length = 16) (h4 : ms4.length = 4) (h8 : d8.length = 8) :
    (NokvaultMagic ++ u16le CurrentVersion ++ salt ++ ms4 ++ d8 ++ mj).take 8 =
        NokvaultMagic ∧
    ((NokvaultMagic ++ u16le CurrentVersion ++ salt ++ ms4 ++ d8 ++ mj).drop 8).take 2 =
        u16le CurrentVersion ∧
    ((NokvaultMagic ++ u16le CurrentVersion ++ salt ++ ms4 ++ d8 ++ mj).drop 10).take 16 =
        salt ∧
    ((NokvaultMagic ++ u16le CurrentVersion ++ salt ++ ms4 ++ d8 ++ mj).drop 26).take 4 =
        ms4 ∧
    ((NokvaultMagic ++ u16le CurrentVersion ++ salt ++ ms4 ++ d8 ++ mj).drop 30).take 8 =
        d8 ∧
    (NokvaultMagic ++ u16le CurrentVersion ++ salt ++ ms4 ++ d8 ++ mj).drop 38 = mj ∧
    (NokvaultMagic ++ u16le CurrentVersion ++ salt ++ ms4 ++ d8 ++ mj).length =
        38 + mj.length := by
  have hm : NokvaultMagic.length = 8 := by decide
  have hv : (u16le CurrentVersion).length = 2 := by decide
  have hassoc : NokvaultMagic ++ u16le CurrentVersion ++ salt ++ ms4 ++ d8 ++ mj =
      NokvaultMagic ++ (u16le CurrentVersion ++ (salt ++ (ms4 ++ (d8 ++ mj)))) := by
    simp [List.append_assoc]
  rw [hassoc]
  have d08 : (NokvaultMagic ++
      (u16le CurrentVersion ++ (salt ++ (ms4 ++ (d8 ++ mj))))).drop 8 =
      u16le CurrentVersion ++ (salt ++ (ms4 ++ (d8 ++ mj))) := List.drop_left' hm
  have d10 : (NokvaultMagic ++
      (u16le CurrentVersion ++ (salt ++ (ms4 ++ (d8 ++ mj))))).drop 10 =
      salt ++ (ms4 ++ (d8 ++ mj)) := by
    show (NokvaultMagic ++
      (u16le CurrentVersion ++ (salt ++ (ms4 ++ (d8 ++ mj))))).drop (8 + 2) = _
    rw [← List.drop_drop, d08]
    exact List.drop_left' hv
  have d26 : (NokvaultMagic ++
      (u16le CurrentVersion ++ (salt ++ (ms4 ++ (d8 ++ mj))))).drop 26 =
      ms4 ++ (d8 ++ mj) := by
    show (NokvaultMagic ++
      (u16le CurrentVersion ++ (salt ++ (ms4 ++ (d8 ++ mj))))).drop (10 + 16) = _
    rw [← List.drop_drop, d10]
    exact List.drop_left' hs
  have d30 : (NokvaultMagic ++
      (u16le CurrentVersion ++ (salt ++ (ms4 ++ (d8 ++ mj))))).drop 30 =
      d8 ++ mj := by
    show (NokvaultMagic ++
      (u16le CurrentVersion ++ (salt ++ (ms4 ++ (d8 ++ mj))))).drop (26 + 4) = _
    rw [← List.drop_drop, d26]
    exact List.drop_left' h4
  have d38 : (NokvaultMagic ++
      (u16le CurrentVersion ++ (salt ++ (ms4 ++ (d8 ++ mj))))).drop 38 = mj := by
    show (NokvaultMagic ++
      (u16le CurrentVersion ++ (salt ++ (ms4 ++ (d8 ++ mj))))).drop (30 + 8) = _
    rw [← List.drop_drop, d30]
    exact List.drop_left' h8
  refine ⟨List.take_left' hm, ?_, ?_, ?_, ?_, d38, ?_⟩
  · rw [d08]
    exact List.take_left' hv
  · rw [d10]
    exact List.take_left' hs
  · rw [d26]
    exact List.take_left' h4
  · rw [d30]
    exact List.take_left' h8
  · simp [List.length_append, hm, hv, hs, h4, h8]
    omega

lemma u16le_length (v : Nat) : (u16le v).length = 2 := by simp [u16le]

lemma u32le_length (v : Nat) : (u32le v).length = 4 := by simp [u32le]

lemma u64le_length (v : Nat) : (u64le v).length = 8 := by simp [u64le]

/-- C4 counterexample: for a header written with no metadata, the 8-byte
field at byte offset 30 decodes to 38, not to 30 + metadataSize = 30:
the struct's own 8-byte dataOffset field is part of the header, making
the header 38 bytes long. -/
theorem writeHeader_dataOffset_counterexample :
    (WriteHeader codec0 (List.replicate 16 0) none).toOption.map
        (fun out => leNat ((out.drop 30).take 8)) = some 38 ∧
    (38 : Nat) ≠ 30 + 0 := by
  exact ⟨rfl, by decide⟩

/-- C4 amended: the 8-byte little-endian field at byte offset 30 of every
written container decodes to 38 + metadataSize, and the fixed header is
38 bytes, so ciphertext begins at byte 38 + metadataSize. -/
theorem writeHeader_dataOffset_layout (codec : MetadataCodec)
    (salt : List Nat) (metadata : Option FileMetadata)
    (hs : salt.length = 16) :
    ∃ out, WriteHeader codec salt metadata = .ok out ∧
      leNat ((out.drop 30).take 8) =
        headerBinarySize +
          (match metadata with
            | some m => (codec.enc m).length
            | none => 0) % 2 ^ 32 ∧
      out.length = headerBinarySize +
        (match metadata with
          | some m => (codec.enc m).length
          | none => 0) := by
  have hs' : ¬ salt.length ≠ 16 := by omega
  have h32 : (2 : Nat) ^ 32 = 4294967296 := by norm_num
  have h64 : (2 : Nat) ^ 64 = 18446744073709551616 := by norm_num
  cases metadata with
  | none =>
    have hw : WriteHeader codec salt none =
        .ok (NokvaultMagic ++ u16le CurrentVersion ++ salt ++ u32le 0 ++
          u64le 38 ++ ([] : List Nat)) := by
      unfold WriteHeader
      rw [if_neg hs']
      rfl
    obtain ⟨-, -, -, -, h30, -, hlen⟩ :=
      headerLayout salt (u32le 0) (u64le 38) [] hs (u32le_length _) (u64le_length _)
    refine ⟨_, hw, ?_, ?_⟩
    · rw [h30, leNat_u64le 38 (by rw [h64]; omega)]
      simp [headerBinarySize]
    · rw [hlen]
      simp [headerBinarySize]
  | some m =>
    have hw : WriteHeader codec salt (some m) =
        .ok (NokvaultMagic ++ u16le CurrentVersion ++ salt ++
          u32le ((codec.enc m).length % 2 ^ 32) ++
          u64le (headerBinarySize + (codec.enc m).length % 2 ^ 32) ++
          codec.enc m) := by
      unfold WriteHeader
      rw [if_neg hs']
    obtain ⟨-, -, -, -, h30, -, hlen⟩ :=
      headerLayout salt (u32le ((codec.enc m).length % 2 ^ 32))
        (u64le (headerBinarySize + (codec.enc m).length % 2 ^ 32))
        (codec.enc m) hs (u32le_length _) (u64le_length _)
    have hmod : (codec.enc m).length % 2 ^ 32 < 2 ^ 32 :=
      Nat.mod_lt _ (by norm_num)
    have hbound : headerBinarySize + (codec.enc m).length % 2 ^ 32 < 2 ^ 64 := by
      rw [h64]
      rw [h32] at hmod
      unfold headerBinarySize
      omega
    refine ⟨_, hw, ?_, ?_⟩
    · rw [h30, leNat_u64le _ hbound]
    · rw [hlen]
      simp [headerBinarySize]

/-- Witness for C4 amended at a concrete salt and metadata record. -/
theorem writeHeader_dataOffset_layout_witness :
    (List.replicate 16 3 : List Nat).length = 16 ∧
    ∃ out, WriteHeader codecW (List.replicate 16 3) (some mW) = .ok out ∧
      leNat ((out.drop 30).take 8) =
        headerBinarySize + (codecW.enc mW).length % 2 ^ 32 ∧
      out.length = headerBinarySize + (codecW.enc mW).length :=
  ⟨by decide, writeHeader_dataOffset_layout codecW (List.replicate 16 3)
    (some mW) (by decide)⟩

/-- Reading back a byte string laid out like a written header parses each
field. -/
lemma readHeader_of_layout (salt mj : List Nat) (ms d : Nat)
    (hs : salt.length = 16) (hms : ms < 2 ^ 32) (hd : d < 2 ^ 64) :
    ReadHeader (NokvaultMagic ++ u16le CurrentVersion ++ salt ++
        u32le ms ++ u64le d ++ mj) =
      .ok (⟨NokvaultMagic, CurrentVersion, salt, ms, d⟩, mj) := by
  obtain ⟨h0, h8, h10, h26, h30, h38, hlen⟩ :=
    headerLayout salt (u32le ms) (u64le d) mj hs (u32le_length _) (u64le_length _)
  simp only [ReadHeader, headerBinarySize]
  rw [hlen, h0, h8, h10, h26, h30, h38]
  rw [leNat_u16le CurrentVersion (by decide), leNat_u32le ms hms,
    leNat_u64le d hd]
  simp

/-- C10: writing a header and reading the same bytes back is the identity
on the recorded information: version 1, the identical salt, a metadata
size equal to the serialized metadata's length; nil metadata round-trips
as nil without error and non-nil metadata comes back equal, by the
marshalling contract of the codec at that record. -/
theorem header_metadata_roundtrip (codec : MetadataCodec) (salt : List Nat)
    (metadata : Option FileMetadata) (hs : salt.length = 16)
    (henc : ∀ m, metadata = some m →
      codec.dec (codec.enc m) = some m ∧ 0 < (codec.enc m).length ∧
        (codec.enc m).length < 2 ^ 32) :
    ∃ out header,
      WriteHeader codec salt metadata = .ok out ∧
      ReadHeaderWithMetadata codec out = .ok (header, metadata, []) ∧
      header.version = CurrentVersion ∧
      header.salt = salt ∧
      header.metadataSize =
        (match metadata with
          | some m => (codec.enc m).length
          | none => 0) := by
  have hs' : ¬ salt.length ≠ 16 := by omega
  cases metadata with
  | none =>
    have hw : WriteHeader codec salt none =
        .ok (NokvaultMagic ++ u16le CurrentVersion ++ salt ++ u32le 0 ++
          u64le 38 ++ ([] : List Nat)) := by
      unfold WriteHeader
      rw [if_neg hs']
      rfl
    have hread := readHeader_of_layout salt [] 0 38 hs (by norm_num) (by norm_num)
    refine ⟨_, ⟨NokvaultMagic, CurrentVersion, salt, 0, 38⟩, hw, ?_, rfl, rfl, rfl⟩
    unfold ReadHeaderWithMetadata
    rw [hread]
    rfl
  | some m =>
    obtain ⟨hdec, hpos, hlt⟩ := henc m rfl
    have hmod : (codec.enc m).length % 2 ^ 32 = (codec.enc m).length :=
      Nat.mod_eq_of_lt hlt
    have hw : WriteHeader codec salt (some m) =
        .ok (NokvaultMagic ++ u16le CurrentVersion ++ salt ++
          u32le ((codec.enc m).length % 2 ^ 32) ++
          u64le (headerBinarySize + (codec.enc m).length % 2 ^ 32) ++
          codec.enc m) := by
      unfold WriteHeader
      rw [if_neg hs']
    rw [hmod] at hw
    have hd64 : headerBinarySize + (codec.enc m).length < 2 ^ 64 := by
      have h32 : (2 : Nat) ^ 32 = 4294967296 := by norm_num
      have h64 : (2 : Nat) ^ 64 = 18446744073709551616 := by norm_num
      rw [h32] at hlt
      rw [h64]
      unfold headerBinarySize
      omega
    have hread := readHeader_of_layout salt (codec.enc m)
      ((codec.enc m).length) (headerBinarySize + (codec.enc m).length)
      hs hlt hd64
    refine ⟨_, ⟨NokvaultMagic, CurrentVersion, salt, (codec.enc m).length,
      headerBinarySize + (codec.enc m).length⟩, hw, ?_, rfl, rfl, rfl⟩
    unfold ReadHeaderWithMetadata
    rw [hread]
    simp [hpos, hdec, List.take_length, List.drop_length]

/-- Witness for C10 at a concrete salt, codec and metadata record. -/
theorem header_metadata_roundtrip_witness :
    ((List.replicate 16 3 : List Nat).length = 16 ∧
      codecW.dec (codecW.enc mW) = some mW ∧ 0 < (codecW.enc mW).length ∧
        (codecW.enc mW).length < 2 ^ 32) ∧
    ∃ out header,
      WriteHeader codecW (List.replicate 16 3) (some mW) = .ok out ∧
      ReadHeaderWithMetadata codecW out = .ok (header, some mW, []) ∧
      header.version = CurrentVersion ∧
      header.salt = List.replicate 16 3 ∧
      header.metadataSize = (codecW.enc mW).length :=
  ⟨⟨by decide, by decide, by decide, by decide⟩,
   header_metadata_roundtrip codecW (List.replicate 16 3) (some mW) (by decide)
     (fun m hm => by
       injection hm with h
       subst h
       exact ⟨by decide, by decide, by decide⟩)⟩

/-! ## Claims about the directory walk -/

/-- A pipeline that fails on the entry with relative path a.txt and
succeeds everywhere else. -/
def cexPipeline : WalkEntry → Except String Unit :=
  fun e => if e.relPath = "a.txt" then .error "boom" else .ok ()

/-- A pipeline that fails on the entry with relative path a.txt.nokvault
and succeeds everywhere else. -/
def cexPipelineD : WalkEntry → Except String Unit :=
  fun e => if e.relPath = "a.txt.nokvault" then .error "boom" else .ok ()

/-- C2 counterexample: with two files where the first fails, the core
directory encryptor stops after the first entry — only one progress
event is emitted, the error is returned for the whole job, and the
second file is never processed even though its pipeline would succeed. -/
theorem directory_abort_counterexample :
    (EncryptDirectory
        [⟨"/in/a.txt", "a.txt", false⟩, ⟨"/in/b.txt", "b.txt", false⟩]
        cexPipeline).2 = .error "failed to encrypt a.txt: boom" ∧
    (EncryptDirectory
        [⟨"/in/a.txt", "a.txt", false⟩, ⟨"/in/b.txt", "b.txt", false⟩]
        cexPipeline).1 = [⟨1, 2, "a.txt"⟩] ∧
    cexPipeline ⟨"/in/b.txt", "b.txt", false⟩ = .ok () :=
  ⟨rfl, rfl, rfl⟩

/-- The encrypt walk stops at the first failing file: unboundedly many
entries may follow and none of them is reached. -/
lemma encryptWalk_abort (pl : WalkEntry → Except String Unit) (total : Nat)
    (pre : List WalkEntry) (e : WalkEntry) (post : List WalkEntry)
    (cur : Nat) (msg : String)
    (hpre : ∀ x ∈ pre, x.isDir = false → pl x = .ok ())
    (hdir : e.isDir = false) (hfail : pl e = .error msg) :
    (encryptWalk pl total (pre ++ e :: post) cur).2 =
      .error ("failed to encrypt " ++ e.relPath ++ ": " ++ msg) ∧
    (encryptWalk pl total (pre ++ e :: post) cur).1.map (fun ev => ev.file) =
      (pre.filter (fun x => !x.isDir)).map (fun x => x.relPath) ++
        [e.relPath] := by
  induction pre generalizing cur with
  | nil =>
    simp only [List.nil_append]
    unfold encryptWalk
    rw [hdir, hfail]
    simp
  | cons x pre ih =>
    have hpre' : ∀ y ∈ pre, y.isDir = false → pl y = .ok () :=
      fun y hy => hpre y (List.mem_cons_of_mem _ hy)
    simp only [List.cons_append]
    unfold encryptWalk
    by_cases hxd : x.isDir = true
    · rw [if_pos hxd]
      obtain ⟨ih1, ih2⟩ := ih cur hpre'
      refine ⟨ih1, ?_⟩
      rw [ih2]
      simp [List.filter, hxd]
    · have hxd' : x.isDir = false := by
        revert hxd
        cases x.isDir <;> simp
      rw [if_neg hxd]
      rw [hpre x (List.mem_cons_self x pre) hxd']
      obtain ⟨ih1, ih2⟩ := ih (cur + 1) hpre'
      refine ⟨ih1, ?_⟩
      simp only [List.map_cons]
      rw [ih2]
      simp [List.filter, hxd']

/-- The decrypt walk stops at the first failing .nokvault file. -/
lemma decryptWalk_abort (pl : WalkEntry → Except String Unit) (total : Nat)
    (pre : List WalkEntry) (e : WalkEntry) (post : List WalkEntry)
    (cur : Nat) (msg : String)
    (hpre : ∀ x ∈ pre, x.isDir = false → filepathExt x.path = ".nokvault" →
      pl x = .ok ())
    (hdir : e.isDir = false) (hext : filepathExt e.path = ".nokvault")
    (hfail : pl e = .error msg) :
    (decryptWalk pl total (pre ++ e :: post) cur).2 =
      .error ("failed to decrypt " ++ e.relPath ++ ": " ++ msg) ∧
    (decryptWalk pl total (pre ++ e :: post) cur).1.map (fun ev => ev.file) =
      (pre.filter (fun x => !x.isDir && filepathExt x.path = ".nokvault")).map
        (fun x => x.relPath.dropRight ".nokvault".length) ++
        [e.relPath.dropRight ".nokvault".length] := by
  induction pre generalizing cur with
  | nil =>
    have hskip : ¬ (e.isDir = true ∨ filepathExt e.path ≠ ".nokvault") := by
      rw [hdir, hext]
      simp
    simp only [List.nil_append]
    unfold decryptWalk
    rw [if_neg hskip, hfail]
    simp
  | cons x pre ih =>
    have hpre' : ∀ y ∈ pre, y.isDir = false →
        filepathExt y.path = ".nokvault" → pl y = .ok () :=
      fun y hy => hpre y (List.mem_cons_of_mem _ hy)
    simp only [List.cons_append]
    unfold decryptWalk
    by_cases hskip : x.isDir = true ∨ filepathExt x.path ≠ ".nokvault"
    · rw [if_pos hskip]
      obtain ⟨ih1, ih2⟩ := ih cur hpre'
      refine ⟨ih1, ?_⟩
      rw [ih2]
      rcases hskip with h | h
      · simp [List.filter, h]
      · have hfb : (!x.isDir && decide (filepathExt x.path = ".nokvault")) = false := by
          rcases Bool.eq_false_or_eq_true x.isDir with h1 | h1
          · rw [h1]
            rfl
          · rw [h1, Bool.not_false, Bool.true_and, decide_eq_false_iff_not]
            exact h
        simp [List.filter, hfb]
    · push_neg at hskip
      obtain ⟨hxd, hxe⟩ := hskip
      have hxd' : x.isDir = false := by
        revert hxd
        cases x.isDir <;> simp
      rw [if_neg (by rw [hxd', hxe]; simp)]
      rw [hpre x (List.mem_cons_self x pre) hxd' hxe]
      obtain ⟨ih1, ih2⟩ := ih (cur + 1) hpre'
      refine ⟨ih1, ?_⟩
      simp only [List.map_cons]
      rw [ih2]
      simp [List.filter, hxd', hxe]

/-- C2 amended: the core directory operations abort on the first failing
entry instead of continuing. For any walk order split as pre ++ failing ++
post where every processed entry of pre succeeds, both EncryptDirectory
and DecryptDirectory return an error naming the failing entry's relative
path; the failing entry still receives its progress tick, and no entry
after it is processed or ticked. -/
theorem directory_abort_on_first_failure
    (plE plD : WalkEntry → Except String Unit)
    (preE postE preD postD : List WalkEntry) (eE eD : WalkEntry)
    (msgE msgD : String)
    (hpreE : ∀ x ∈ preE, x.isDir = false → plE x = .ok ())
    (hdirE : eE.isDir = false) (hfailE : plE eE = .error msgE)
    (hpreD : ∀ x ∈ preD, x.isDir = false → filepathExt x.path = ".nokvault" →
      plD x = .ok ())
    (hdirD : eD.isDir = false) (hextD : filepathExt eD.path = ".nokvault")
    (hfailD : plD eD = .error msgD) :
    ((EncryptDirectory (preE ++ eE :: postE) plE).2 =
        .error ("failed to encrypt " ++ eE.relPath ++ ": " ++ msgE) ∧
      (EncryptDirectory (preE ++ eE :: postE) plE).1.map (fun ev => ev.file) =
        (preE.filter (fun x => !x.isDir)).map (fun x => x.relPath) ++
          [eE.relPath]) ∧
    ((DecryptDirectory (preD ++ eD :: postD) plD).2 =
        .error ("failed to decrypt " ++ eD.relPath ++ ": " ++ msgD) ∧
      (DecryptDirectory (preD ++ eD :: postD) plD).1.map (fun ev => ev.file) =
        (preD.filter
          (fun x => !x.isDir && filepathExt x.path = ".nokvault")).map
            (fun x => x.relPath.dropRight ".nokvault".length) ++
          [eD.relPath.dropRight ".nokvault".length]) := by
  constructor
  · exact encryptWalk_abort plE _ preE eE postE 0 msgE hpreE hdirE hfailE
  · exact decryptWalk_abort plD _ preD eD postD 0 msgD hpreD hdirD hextD hfailD

/-- Witness for C2 amended: one failing file followed by one healthy file,
for both the encrypt and the decrypt walk. -/
theorem directory_abort_on_first_failure_witness :
    ((EncryptDirectory
        [⟨"/in/a.txt", "a.txt", false⟩, ⟨"/in/b.txt", "b.txt", false⟩]
        cexPipeline).2 = .error "failed to encrypt a.txt: boom" ∧
      (EncryptDirectory
        [⟨"/in/a.txt", "a.txt", false⟩, ⟨"/in/b.txt", "b.txt", false⟩]
        cexPipeline).1.map (fun ev => ev.file) = ["a.txt"]) ∧
    ((DecryptDirectory
        [⟨"/in/a.txt.nokvault", "a.txt.nokvault", false⟩,
         ⟨"/in/b.txt.nokvault", "b.txt.nokvault", false⟩]
        cexPipelineD).2 = .error "failed to decrypt a.txt.nokvault: boom" ∧
      (DecryptDirectory
        [⟨"/in/a.txt.nokvault", "a.txt.nokvault", false⟩,
         ⟨"/in/b.txt.nokvault", "b.txt.nokvault", false⟩]
        cexPipelineD).1.map (fun ev => ev.file) = ["a.txt"]) :=
  directory_abort_on_first_failure cexPipeline cexPipelineD
    [] [⟨"/in/b.txt", "b.txt", false⟩]
    [] [⟨"/in/b.txt.nokvault", "b.txt.nokvault", false⟩]
    ⟨"/in/a.txt", "a.txt", false⟩ ⟨"/in/a.txt.nokvault", "a.txt.nokvault", false⟩
    "boom" "boom"
    (fun x hx => absurd hx (List.not_mem_nil x))
    rfl rfl
    (fun x hx => absurd hx (List.not_mem_nil x))
    rfl rfl rfl

/-! ## Claims about the decrypt pipeline's offset handling (C5) and key
rotation (C1) -/

/-- A syntactically valid 38-byte container whose header declares a
dataOffset of 1000, far past the end of the file. -/
def c5File : List Nat :=
  NokvaultMagic ++ u16le 1 ++ List.replicate 16 0 ++ u32le 0 ++ u64le 1000

/-- C5: the header's dataOffset is not validated against the file length.
On a 38-byte container declaring dataOffset 1000, the core directory
decryptor's `ciphertext[dataStart:]` slice is out of bounds — a runtime
panic, not an error return — while the CLI single-file path, which seeks
instead of slicing, reads zero bytes and fails cleanly with its generic
decryption error. -/
theorem core_decrypt_oversized_offset_panics :
    c5File.length = 38 ∧
    (ReadHeader c5File).toOption.map (fun hr => hr.1.dataOffset) = some 1000 ∧
    coreDecryptFileWithMetadata toyGcmOf codec0 (fun _ => .error "gzip")
      c5File (List.replicate 32 0) = .panicked "slice bounds out of range" ∧
    cliDecryptFile toyGcmOf codec0 toyArgon (fun _ => .error "gzip")
      c5File [1] =
      .error "Decryption failed - incorrect password or corrupted file" :=
  ⟨rfl, rfl, rfl, rfl⟩

/-- The rotation environment instantiated with the executable stand-ins. -/
def toyEnv : RotateEnv := ⟨toyGcmOf, toyArgon, codec0⟩

def c1Salt0 : List Nat := List.replicate 16 1

def c1OldPw : List Nat := [1, 2, 3]

def c1NewPw : List Nat := [4, 5, 6]

def c1Plain : List Nat := [72, 105]

def c1Nonce0 : List Nat := List.replicate 12 9

/-- A container holding `c1Plain` under the key derived from the old
password and the salt stored in its header. -/
def c1Orig : List Nat :=
  ((WriteHeader codec0 c1Salt0 none).toOption.getD []) ++
    ((EncryptData toyGcmOf c1Plain (toyArgon c1OldPw c1Salt0)
      c1Nonce0).toOption.getD [])

def c1SaltDraw1 : List Nat := List.replicate 16 2

def c1SaltDraw2 : List Nat := List.replicate 16 3

def c1Nonce1 : List Nat := List.replicate 12 4

/-- The rotated container produced by runRotateKey, where the first salt
draw is written to the header and the second is consumed inside
DeriveKeyFromPassword. -/
def c1Rot : List Nat :=
  (runRotateKey toyEnv c1Orig c1OldPw c1NewPw c1SaltDraw1 c1SaltDraw2
    c1Nonce1).toOption.getD []

set_option maxRecDepth 20000 in
/-- C1: rotation succeeds, but the salt stored in the rotated container's
header (the first draw) is not the salt used to derive the new encryption
key (the second draw, generated and discarded inside
DeriveKeyFromPassword). Deriving a key from the new password and the
container's stored salt fails to decrypt the rotated payload; only the
discarded second salt would succeed — so the new password cannot open the
rotated container, contradicting the claim. -/
theorem rotate_key_stored_salt_cannot_decrypt :
    (runRotateKey toyEnv c1Orig c1OldPw c1NewPw c1SaltDraw1 c1SaltDraw2
        c1Nonce1).toOption = some c1Rot ∧
    (c1Rot.drop 10).take 16 = c1SaltDraw1 ∧
    c1SaltDraw1 ≠ c1SaltDraw2 ∧
    (DecryptData toyGcmOf (c1Rot.drop 38)
        (toyArgon c1NewPw ((c1Rot.drop 10).take 16))).toOption = none ∧
    (DecryptData toyGcmOf (c1Rot.drop 38)
        (toyArgon c1NewPw c1SaltDraw2)).toOption = some c1Plain :=
  ⟨rfl, rfl, by decide, rfl, rfl⟩
